import Mathlib

/-!
Verification of the RAG engine of the gongwen-rag-system repository.

This file gives a shallow embedding, in Lean, of the retrieval pipeline
(`app/services/rag_service_old.py`), the conversation memory
(`app/services/conversation_service.py`), the text chunker
(`app/utils/text_processor.py`) and the document ingestion id scheme
(`app/services/document_service.py`), together with theorems settling the
spec claims about them.

Modelling conventions:
* Python floats are modelled as `ℚ` (all score/weight arithmetic in the
  source is plain products and comparisons, exactly representable here).
* Python `str` is modelled as `String` / `List Char`; `len` is the
  code-point count on both sides.
* The external Milvus vector store is modelled by `VStore`: a list of
  stored entity rows.  `VStore.search` returns only rows of the named
  collection, restricted to the listed partitions when `partition_names`
  is supplied, filtered by the `valid == true` expression, truncated to
  `top_k` — this is exactly the contract the spec claims assume of the
  store.  The store's similarity ranking is abstracted by the stored
  order; each row carries the similarity `score` the store would report
  for the query under consideration.
* A call into an external service that may raise is modelled by an
  `Except Unit` argument: `.error ()` is a raised exception, `.ok v` a
  normal return.
* Python `list.sort(key=…, reverse=True)` is a stable descending sort;
  it is modelled by `List.insertionSort` with the reflexive descending
  comparison, which is extensionally equal to any stable descending
  sort.
-/

namespace GongwenRag

/-- The `source_type` tag assigned in `_multi_source_retrieve`
("public" / "private" / "conversation"). -/
inductive SourceType where
  | pub
  | priv
  | conv
  deriving DecidableEq, Repr

/-- A retrieval candidate: the dict produced by `vector_service.search`
(resp. `search_conversations`), with the fields later written into it by
`_multi_source_retrieve` (`source_type`, `weighted_score`) and `_rerank`
(`rerank_score`).  `sourceType` and `weightedScore` are placeholders
until the retriever assigns them; optional fields model dict keys that
may be absent (read with `.get` and a default in the source).  Metadata
fields not used by any verified property (`doc_id`, `chunk_index`,
`tags`, `created_at`, `filename`) are omitted. -/
structure Cand where
  id : String
  score : ℚ
  weight : ℚ
  sourceType : SourceType
  weightedScore : ℚ
  rerankScore : Option ℚ
  query : Option String
  answer : Option String
  docType : Option String
  title : Option String
  chunkContent : Option String
  deriving DecidableEq, Repr

/-- `candidate["source_type"] = st; candidate["weighted_score"] = candidate["score"] * w`
(the per-candidate mutation done for each source in `_multi_source_retrieve`). -/
def tagCand (st : SourceType) (w : ℚ) (c : Cand) : Cand :=
  { c with sourceType := st, weightedScore := c.score * w }

/-- The comparison used by
`all_candidates.sort(key=lambda x: x["weighted_score"], reverse=True)`:
`a` may come before `b` iff `a`'s weighted score is at least `b`'s. -/
def byWeightedDesc (a b : Cand) : Prop :=
  b.weightedScore ≤ a.weightedScore

instance : DecidableRel byWeightedDesc := fun a b =>
  inferInstanceAs (Decidable (b.weightedScore ≤ a.weightedScore))

instance : IsTotal Cand byWeightedDesc :=
  ⟨fun a b => le_total b.weightedScore a.weightedScore⟩

instance : IsTrans Cand byWeightedDesc :=
  ⟨fun _ _ _ hab hbc => le_trans hbc hab⟩

/-- `_multi_source_retrieve` (rag_service_old.py, lines 75–145), with the
three external search calls abstracted as already-performed call
outcomes (`.error ()` = the call raised; the surrounding `try/except`
then contributes no candidates).  The conversation call is guarded by
`include_conversations`.  Candidates are tagged with their source type
and weighted score, concatenated in source order (public, private,
conversation) and stably sorted by weighted score descending. -/
def multi_source_retrieve_core (pw pv cw : ℚ)
    (pubRes privRes convRes : Except Unit (List Cand))
    (include_conversations : Bool) : List Cand :=
  let pubC := match pubRes with
    | .ok l => l.map (tagCand .pub pw)
    | .error _ => []
  let privC := match privRes with
    | .ok l => l.map (tagCand .priv pv)
    | .error _ => []
  let convC :=
    if include_conversations then
      match convRes with
      | .ok l => l.map (tagCand .conv cw)
      | .error _ => []
    else []
  List.insertionSort byWeightedDesc (pubC ++ privC ++ convC)

/-! ### The vector store model -/

/-- A stored entity row of one Milvus collection, as created by
`_ingest_document` / `_ingest_conversation` (vector_service.py schema).
`partition` is the partition the row was inserted into (`""` for the
unpartitioned public collection).  `score` is the similarity the store
reports for this row against the query under consideration (the
embedding itself is abstracted away).  Metadata fields not used by any
verified property are omitted. -/
structure VRow where
  collection : String
  partition : String
  id : String
  ownerId : String
  score : ℚ
  weight : ℚ
  valid : Bool
  title : String
  docType : String
  chunkContent : String
  deriving DecidableEq, Repr

/-- The external vector store: the rows it holds, in the order its
similarity ranking would return them for the query under consideration. -/
structure VStore where
  rows : List VRow
  deriving DecidableEq, Repr

/-- `vector_service.search(collection_name, …, top_k, partition_names, expr)`:
returns up to `top_k` rows of the named collection, only from the listed
partitions when `partition_names` is supplied, and only `valid` rows
when the `expr="valid == true"` filter is passed
(`filterValid = true`). -/
def VStore.search (st : VStore) (collection_name : String) (top_k : ℕ)
    (partition_names : Option (List String)) (filterValid : Bool) :
    List VRow :=
  ((st.rows.filter (fun r =>
      r.collection == collection_name
      && (match partition_names with
          | none => true
          | some ps => ps.contains r.partition)
      && (!filterValid || r.valid))).take top_k)

/-- `vector_service.has_partition(collection_name, partition_name)`:
the store model identifies a partition by the rows it holds. -/
def VStore.hasPartition (st : VStore) (collection_name partition_name : String) :
    Bool :=
  st.rows.any (fun r =>
    r.collection == collection_name && r.partition == partition_name)

/-- Conversion of a search hit row to the candidate dict built in
`vector_service.search` (id, score plus the output fields). -/
def rowToCand (r : VRow) : Cand :=
  { id := r.id
    score := r.score
    weight := r.weight
    sourceType := .pub          -- assigned later by the retriever
    weightedScore := 0          -- assigned later by the retriever
    rerankScore := none
    query := none
    answer := none
    docType := some r.docType
    title := some r.title
    chunkContent := some r.chunkContent }

/-- The public-collection search issued by `_multi_source_retrieve`
(lines 87–92): collection `public_documents`, no partition scoping,
`expr="valid == true"`. -/
def publicSearchRows (st : VStore) (top_k : ℕ) : List VRow :=
  st.search "public_documents" top_k none true

/-- The private-collection search issued by `_multi_source_retrieve`
(lines 104–112): collection `private_documents`, scoped to
`partition_names=["user_{user_id}"]`, `expr="valid == true"`. -/
def privateSearchRows (st : VStore) (user_id : String) (top_k : ℕ) :
    List VRow :=
  st.search "private_documents" top_k (some ["user_" ++ user_id]) true

/-! ### Python string primitives used by the source

`str.split(sep)`, `str.replace(old, new)` and `str.strip()` over
`List Char`, with Python's left-to-right, non-overlapping scan
semantics. -/

/-- Characters removed by Python's `str.strip()`: the code points for
which `str.isspace()` holds (CPython's Unicode whitespace set —
`\t`–`\r`, the file/group/record/unit separators `U+001C`–`U+001F`,
space, `U+0085`, `U+00A0`, `U+1680`, `U+2000`–`U+200A`, `U+2028`,
`U+2029`, `U+202F`, `U+205F` and the ideographic space `U+3000`). -/
def isPySpace (c : Char) : Bool :=
  (0x09 ≤ c.toNat && c.toNat ≤ 0x0d)
  || (0x1c ≤ c.toNat && c.toNat ≤ 0x1f)
  || c.toNat == 0x20
  || c.toNat == 0x85
  || c.toNat == 0xa0
  || c.toNat == 0x1680
  || (0x2000 ≤ c.toNat && c.toNat ≤ 0x200a)
  || c.toNat == 0x2028
  || c.toNat == 0x2029
  || c.toNat == 0x202f
  || c.toNat == 0x205f
  || c.toNat == 0x3000

/-- `str.strip()` on a character list. -/
def pyStripL (l : List Char) : List Char :=
  ((l.dropWhile isPySpace).reverse.dropWhile isPySpace).reverse

/-- `str.strip()`. -/
def pyStrip (s : String) : String :=
  String.mk (pyStripL s.data)

/-- Scanner of `str.split(sep)` for a nonempty separator: on a match the
separator is consumed and the accumulated segment emitted, otherwise the
scan advances one character. -/
def splitOnAux (sep : List Char) : List Char → List Char → List (List Char)
  | [], acc => [acc.reverse]
  | c :: rest, acc =>
    if h : sep ≠ [] ∧ sep.isPrefixOf (c :: rest) then
      acc.reverse :: splitOnAux sep ((c :: rest).drop sep.length) []
    else
      splitOnAux sep rest (c :: acc)
termination_by s _ => s.length
decreasing_by
  · have hs : 0 < sep.length := List.length_pos.mpr h.1
    simp only [List.length_drop, List.length_cons]
    omega
  · simp

/-- `s.split(sep)` for a nonempty separator `sep`. -/
def listSplitOn (sep s : List Char) : List (List Char) :=
  splitOnAux sep s []

/-- Scanner of `str.replace(old, new)` for a nonempty pattern. -/
def replaceAux (pat repl : List Char) : List Char → List Char → List Char
  | [], acc => acc.reverse
  | c :: rest, acc =>
    if h : pat ≠ [] ∧ pat.isPrefixOf (c :: rest) then
      replaceAux pat repl ((c :: rest).drop pat.length) (repl.reverse ++ acc)
    else
      replaceAux pat repl rest (c :: acc)
termination_by s _ => s.length
decreasing_by
  · have hs : 0 < pat.length := List.length_pos.mpr h.1
    simp only [List.length_drop, List.length_cons]
    omega
  · simp

/-- `s.replace(pat, repl)` for a nonempty pattern `pat`. -/
def listReplace (pat repl s : List Char) : List Char :=
  replaceAux pat repl s []

/-- Whether `pat` occurs as a contiguous sublist of `s` (the scan
predicate underlying Python `in`, `split` and `replace`). -/
def hasSub (pat s : List Char) : Bool :=
  (List.range (s.length + 1)).any (fun i => pat.isPrefixOf (s.drop i))

/-! ### Conversation memory (`conversation_service.py`) -/

/-- The literal prefix of the stored conversation text
(`f"问题：{query}…"`, `_ingest_conversation` line 86). -/
def questionPrefix : String := "问题："

/-- The literal answer marker the stored conversation content is split
on (`content.split("\n回答：")`, `search_conversations` line 172). -/
def answerMarker : String := "\n回答："

/-- The text embedded by `_ingest_conversation`:
`f"问题：{conversation.query}\n回答：{conversation.answer}"`. -/
def ingest_conversation_content (query answer : String) : String :=
  questionPrefix ++ query ++ answerMarker ++ answer

/-- The entity row written by `_ingest_conversation` into the
`conversations` collection, under partition `user_{user_id}` (created
lazily): one chunk whose content is the question/answer concatenation.
`score` abstracts the similarity the store later reports for it; the
relational record's `valid` flag is `True` on creation
(models/database.py line 37). -/
def ingest_conversation (user_id conv_id query answer : String)
    (weight score : ℚ) : VRow :=
  { collection := "conversations"
    partition := "user_" ++ user_id
    id := conv_id
    ownerId := user_id
    score := score
    weight := weight
    valid := true
    title := query.take 50
    docType := "conversation"
    chunkContent := ingest_conversation_content query answer }

/-- Result-row parsing of `search_conversations` (lines 166–183):
split the stored content on `"\n回答："`, strip the `"问题："` prefix by
global replacement, strip whitespace, and package the hit as a dict
with `id`, `query`, `answer`, `score`, `weight`. -/
def parseConvRow (r : VRow) : Cand :=
  let parts := listSplitOn answerMarker.data r.chunkContent.data
  let queryText :=
    String.mk (pyStripL (listReplace questionPrefix.data [] (parts.headD [])))
  let answerText :=
    match parts with
    | _ :: p1 :: _ => String.mk (pyStripL p1)
    | _ => ""
  { id := r.id
    score := r.score
    weight := r.weight
    sourceType := .pub          -- assigned later by the retriever
    weightedScore := 0          -- assigned later by the retriever
    rerankScore := none
    query := some queryText
    answer := some answerText
    docType := none
    title := none
    chunkContent := none }

/-- The rows underlying `search_conversations` (lines 148–164): if the
user's partition does not exist the call returns `[]`; otherwise the
`conversations` collection is searched scoped to
`partition_names=["user_{user_id}"]` with `expr="valid == true"`. -/
def convSearchRows (st : VStore) (user_id : String) (top_k : ℕ) :
    List VRow :=
  let partition_name := "user_" ++ user_id
  if st.hasPartition "conversations" partition_name then
    st.search "conversations" top_k (some [partition_name]) true
  else []

/-- `conversation_service.search_conversations`. -/
def search_conversations (st : VStore) (user_id : String) (top_k : ℕ) :
    List Cand :=
  (convSearchRows st user_id top_k).map parseConvRow

/-! ### The full multi-source retrieval over the store model -/

/-- `int(top_k * w)`: Python `int()` truncates toward zero, which for
the nonnegative products at hand is the floor. -/
def reqCount (top_k : ℕ) (w : ℚ) : ℕ :=
  (⌊(top_k : ℚ) * w⌋).toNat

/-- `_multi_source_retrieve` instantiated with the store model: each
source is asked for `int(top_k * weight)` candidates (public collection
unscoped, private collection and conversation memory scoped to
partition `user_{user_id}`); the in-model store calls always succeed. -/
def multi_source_retrieve (st : VStore) (pw pv cw : ℚ) (user_id : String)
    (top_k : ℕ) (include_conversations : Bool) : List Cand :=
  multi_source_retrieve_core pw pv cw
    (.ok ((publicSearchRows st (reqCount top_k pw)).map rowToCand))
    (.ok ((privateSearchRows st user_id (reqCount top_k pv)).map rowToCand))
    (.ok (search_conversations st user_id (reqCount top_k cw)))
    include_conversations

/-! ### Reranker (`_rerank`, rag_service_old.py lines 147–184) -/

/-- The rerank endpoint call outcome: `.error ()` models any raised
exception (connection error, timeout, unparsable body); `.ok (status,
scores)` a received response with its HTTP status code and the parsed
`result.get("scores", [])` (so `[]` for a well-formed 200 response that
lacks the `scores` key). -/
abbrev RerankResp := Except Unit (ℕ × List ℚ)

/-- `for i, candidate in enumerate(candidates): if i < len(scores):
candidate["rerank_score"] = scores[i]`. -/
def assignRerankScores : List Cand → List ℚ → List Cand
  | [], _ => []
  | c :: cs, [] => c :: cs
  | c :: cs, s :: ss => { c with rerankScore := some s } :: assignRerankScores cs ss

/-- `x.get("rerank_score", 0)`, the sort key used after reranking. -/
def rerankKey (c : Cand) : ℚ :=
  c.rerankScore.getD 0

/-- The comparison of
`candidates.sort(key=lambda x: x.get("rerank_score", 0), reverse=True)`. -/
def byRerankDesc (a b : Cand) : Prop :=
  rerankKey b ≤ rerankKey a

instance : DecidableRel byRerankDesc := fun a b =>
  inferInstanceAs (Decidable (rerankKey b ≤ rerankKey a))

instance : IsTotal Cand byRerankDesc :=
  ⟨fun a b => le_total (rerankKey b) (rerankKey a)⟩

instance : IsTrans Cand byRerankDesc :=
  ⟨fun _ _ _ hab hbc => le_trans hbc hab⟩

/-- `_rerank`: on an exception the original list is kept; on a 200
response the returned scores are assigned positionally and the list is
stably re-sorted by `rerank_score` descending (a non-200 response is
ignored).  In every case the result is `candidates[:top_k]`. -/
def rerank (resp : RerankResp) (candidates : List Cand) (top_k : ℕ) :
    List Cand :=
  match resp with
  | .error _ => candidates.take top_k
  | .ok (status, scores) =>
    if status = 200 then
      (List.insertionSort byRerankDesc
        (assignRerankScores candidates scores)).take top_k
    else
      candidates.take top_k

/-- The rerank gate of `retrieve_and_generate` (lines 49–52): rerank
only when requested and the candidate pool exceeds `top_k`, otherwise
plain truncation. -/
def select_candidates (rerankFlag : Bool) (resp : RerankResp)
    (candidates : List Cand) (top_k : ℕ) : List Cand :=
  if rerankFlag ∧ candidates.length > top_k then
    rerank resp candidates top_k
  else
    candidates.take top_k

/-! ### Context builder (`_build_context`, rag_service_old.py lines 186–205) -/

/-- The per-candidate rendering: conversation candidates render as a
Q/A pair, document candidates with document type and title (dict reads
use `.get` with the source's defaults). -/
def candidate_text (c : Cand) : String :=
  match c.sourceType with
  | .conv =>
    "历史问答：\nQ: " ++ c.query.getD "" ++ "\nA: " ++ c.answer.getD ""
  | _ =>
    "文档片段（" ++ c.docType.getD "未知类型" ++ " - " ++ c.title.getD "无标题"
      ++ "）：\n" ++ c.chunkContent.getD ""

/-- `estimated_tokens = len(text) * 1.5`. -/
def est_tokens (text : String) : ℚ :=
  (text.length : ℚ) * (3 / 2)

/-- The labelled block appended for candidate number `i`:
`f"[参考资料 {i+1}]\n{text}\n"`. -/
def context_block (i : ℕ) (c : Cand) : String :=
  "[参考资料 " ++ toString (i + 1) ++ "]\n" ++ candidate_text c ++ "\n"

/-- The accumulation loop of `_build_context`: blocks are appended in
rank order while the running total of estimated token costs stays
within `token_limit`; the first overflowing block `break`s the loop,
discarding it and everything after it. -/
def build_context_parts (token_limit : ℚ) :
    List Cand → ℕ → ℚ → List String
  | [], _, _ => []
  | c :: rest, i, total_tokens =>
    let text := candidate_text c
    if token_limit < total_tokens + est_tokens text then []
    else context_block i c :: build_context_parts token_limit rest (i + 1)
      (total_tokens + est_tokens text)

/-- `_build_context`: `"\n".join(context_parts)`. -/
def build_context (candidates : List Cand) (token_limit : ℚ) : String :=
  String.intercalate "\n" (build_context_parts token_limit candidates 0 0)

/-- All blocks of a candidate list from index `i` on, without any
budget (the specification-side rendering used to state that the built
context is a whole-block prefix). -/
def all_context_blocks : ℕ → List Cand → List String
  | _, [] => []
  | i, c :: rest => context_block i c :: all_context_blocks (i + 1) rest

/-- Total estimated token cost of the rendered texts of a candidate
list (the quantity `total_tokens` accumulates). -/
def est_sum (l : List Cand) : ℚ :=
  (l.map (fun c => est_tokens (candidate_text c))).sum

/-! ### Chunker (`text_processor.py`) -/

/-- The sentence-terminal punctuation of
`re.split(r'([。！？\.\!\?])', para)`. -/
def isSentEnd (c : Char) : Bool :=
  c == '。' || c == '！' || c == '？' || c == '.' || c == '!' || c == '?'

/-- Split a character list into segments each ending right after a
sentence-terminal punctuation character, with a (possibly empty)
trailing segment.  This is exactly what the pairing loop of
`_split_long_paragraph` reconstructs from `re.split` with the capture
group. -/
def splitAfterPunct : List Char → List Char → List (List Char)
  | acc, [] => [acc.reverse]
  | acc, c :: rest =>
    if isSentEnd c then (c :: acc).reverse :: splitAfterPunct [] rest
    else splitAfterPunct (c :: acc) rest

/-- The stripped, nonempty sentences of a paragraph
(`sentence = sentence.strip(); if not sentence: continue`). -/
def sentencesOf (para : String) : List String :=
  ((splitAfterPunct [] para.data).map (fun l => String.mk (pyStripL l))).filter
    (fun s => s ≠ "")

/-- The greedy sentence accumulation of `_split_long_paragraph` (lines
97–118): flush the buffer when adding the next sentence would exceed
`chunk_size` (sentences are concatenated without a separator, so the
tracked length is the buffer length). -/
def sentenceAccum (chunk_size : ℕ) :
    List String → String → ℕ → List String
  | [], current_chunk, _ =>
    if current_chunk ≠ "" then [current_chunk] else []
  | s :: rest, current_chunk, current_length =>
    if chunk_size < current_length + s.length then
      (if current_chunk ≠ "" then [current_chunk] else [])
        ++ sentenceAccum chunk_size rest s s.length
    else
      sentenceAccum chunk_size rest (current_chunk ++ s)
        (current_length + s.length)

/-- `_split_long_paragraph`. -/
def split_long_paragraph (chunk_size : ℕ) (para : String) : List String :=
  sentenceAccum chunk_size (sentencesOf para) "" 0

/-- The paragraph accumulation loop of `split_text` (lines 46–75).
Empty (after stripping) paragraphs are skipped; an over-long paragraph
flushes the buffer and is sentence-split; otherwise the paragraph is
appended to the buffer joined by a blank line, while `current_length`
tracks only the sum of paragraph lengths (not the separators). -/
def splitParasAccum (chunk_size : ℕ) :
    List String → String → ℕ → List String
  | [], current_chunk, _ =>
    if current_chunk ≠ "" then [current_chunk] else []
  | p :: rest, current_chunk, current_length =>
    let para := pyStrip p
    if para = "" then splitParasAccum chunk_size rest current_chunk current_length
    else if chunk_size < para.length then
      (if current_chunk ≠ "" then [current_chunk] else [])
        ++ split_long_paragraph chunk_size para
        ++ splitParasAccum chunk_size rest "" 0
    else if chunk_size < current_length + para.length then
      current_chunk :: splitParasAccum chunk_size rest para para.length
    else
      splitParasAccum chunk_size rest
        (if current_chunk ≠ "" then current_chunk ++ "\n\n" ++ para else para)
        (current_length + para.length)

/-- `prev_text[-chunk_overlap:]` for a positive `chunk_overlap`: the
last `min chunk_overlap (length)` characters. -/
def takeRightChars (s : String) (n : ℕ) : String :=
  String.mk (s.data.drop (s.data.length - n))

/-- `_add_overlap` (lines 122–136): every chunk except the first is
prefixed with the last `chunk_overlap` characters of the *original*
previous chunk, joined by a line break. -/
def add_overlap (chunk_overlap : ℕ) : List String → List String
  | [] => []
  | c :: rest => c :: addOverlapGo chunk_overlap c rest
where
  addOverlapGo (chunk_overlap : ℕ) : String → List String → List String
  | _, [] => []
  | prev, c :: rest =>
    (takeRightChars prev chunk_overlap ++ "\n" ++ c)
      :: addOverlapGo chunk_overlap c rest

/-- `split_text` (lines 38–87), taking the paragraph list produced by
`re.split(r'\n\s*\n', text)` as input; returns the ordered chunk
contents (`chunk_index` is the list position). -/
def split_text (chunk_size chunk_overlap : ℕ) (paras : List String) :
    List String :=
  let chunks := splitParasAccum chunk_size paras "" 0
  if 0 < chunk_overlap ∧ 1 < chunks.length then add_overlap chunk_overlap chunks
  else chunks

/-! ### Document ingestion ids (`document_service.py`) -/

/-- `doc_id = f"doc_{uuid.uuid4().hex[:16]}"` (`create_document` line
25), with the freshly drawn `uuid4().hex` made an explicit input. -/
def create_document_doc_id (uuid4hex : String) : String :=
  "doc_" ++ String.mk (uuid4hex.data.take 16)

/-- The chunk ids written by `_ingest_document` (line 65):
`chunk_id = f"{doc_id}#{i}"` for `i` ranging over the enumerated
chunks. -/
def ingest_document_ids (doc_id : String) (chunks : List String) :
    List String :=
  chunks.enum.map (fun p => doc_id ++ "#" ++ toString p.1)

/-- The chunk ids resulting from `create_document` on raw content with
the default chunking configuration (CHUNK_SIZE=500, CHUNK_OVERLAP=50):
the document id comes from the per-call fresh `uuid4`, the chunks from
`split_text` on the content. -/
def create_document_chunk_ids (uuid4hex : String) (paras : List String) :
    List String :=
  ingest_document_ids (create_document_doc_id uuid4hex)
    (split_text 500 50 paras)

/-! ## Helper lemmas -/

/-- A stability fact about `orderedInsert` with a descending key
comparison: an inserted element with key `v` lands in front of every
element of key `v` already present (every skipped element has a
strictly larger key). -/
theorem orderedInsert_filter_key_eq {α} (key : α → ℚ) (v : ℚ) (x : α)
    (hx : key x = v) :
    ∀ l : List α,
      (l.orderedInsert (fun a b => key b ≤ key a) x).filter
          (fun c => decide (key c = v))
        = x :: l.filter (fun c => decide (key c = v))
  | [] => by simp [hx]
  | b :: l => by
    rw [List.orderedInsert]
    by_cases hb : key b ≤ key x
    · rw [if_pos hb, List.filter_cons_of_pos (by simp [hx])]
    · have hbv : ¬ (decide (key b = v) = true) := by
        simp only [decide_eq_true_eq]
        intro h
        exact hb (h.trans hx.symm).le
      rw [if_neg hb]
      rw [List.filter_cons, if_neg hbv]
      rw [orderedInsert_filter_key_eq key v x hx l]
      rw [List.filter_cons, if_neg hbv]

/-- `orderedInsert` of an element whose key is not `v` leaves the
key-`v` elements untouched. -/
theorem orderedInsert_filter_key_ne {α} (key : α → ℚ) (v : ℚ) (x : α)
    (hx : ¬ key x = v) :
    ∀ l : List α,
      (l.orderedInsert (fun a b => key b ≤ key a) x).filter
          (fun c => decide (key c = v))
        = l.filter (fun c => decide (key c = v))
  | [] => by simp [hx]
  | b :: l => by
    rw [List.orderedInsert]
    by_cases hb : key b ≤ key x
    · rw [if_pos hb, List.filter_cons_of_neg (by simpa using hx)]
    · rw [if_neg hb, List.filter_cons]
      rw [orderedInsert_filter_key_ne key v x hx l, List.filter_cons]

/-- Stability of the descending insertion sort: restricted to any fixed
key value, the sorted output lists the elements in their original
order.  This is the defining property of Python's stable
`list.sort(key=…, reverse=True)`. -/
theorem insertionSort_filter_key {α} (key : α → ℚ) (v : ℚ) :
    ∀ l : List α,
      ((l.insertionSort (fun a b => key b ≤ key a)).filter
          (fun c => decide (key c = v)))
        = l.filter (fun c => decide (key c = v))
  | [] => rfl
  | x :: l => by
    rw [List.insertionSort, List.filter_cons]
    by_cases hx : key x = v
    · rw [orderedInsert_filter_key_eq key v x hx,
        insertionSort_filter_key key v l, hx]
      simp
    · rw [orderedInsert_filter_key_ne key v x hx,
        insertionSort_filter_key key v l, if_neg (by simpa using hx)]

/-- The per-source weight a tagged candidate's weighted score is based
on. -/
def sourceWeight (pw pv cw : ℚ) : SourceType → ℚ
  | .pub => pw
  | .priv => pv
  | .conv => cw

/-! ## C2 -/

/-- C2: a single failing source does not propagate its error out of
`_multi_source_retrieve` (the function returns a plain list in every
case), and the result equals the weighted merge of the remaining
sources' candidates alone — the failing source contributes exactly the
zero candidates an empty result would: whichever of the three sources
raises, the outcome is the one obtained from the two remaining sources
and an empty result for the failed one. -/
theorem C2_source_failure_isolation (pw pv cw : ℚ) (incl : Bool)
    (l₁ l₂ l₃ : List Cand) :
    (multi_source_retrieve_core pw pv cw (.error ()) (.ok l₂) (.ok l₃) incl
       = multi_source_retrieve_core pw pv cw (.ok []) (.ok l₂) (.ok l₃) incl)
    ∧ (multi_source_retrieve_core pw pv cw (.ok l₁) (.error ()) (.ok l₃) incl
       = multi_source_retrieve_core pw pv cw (.ok l₁) (.ok []) (.ok l₃) incl)
    ∧ (multi_source_retrieve_core pw pv cw (.ok l₁) (.ok l₂) (.error ()) incl
       = multi_source_retrieve_core pw pv cw (.ok l₁) (.ok l₂) (.ok []) incl)
    ∧ (multi_source_retrieve_core pw pv cw (.error ()) (.ok l₂) (.ok l₃) incl
       = List.insertionSort byWeightedDesc
           (l₂.map (tagCand .priv pv)
             ++ (if incl then l₃.map (tagCand .conv cw) else []))) := by
  refine ⟨?_, ?_, ?_, ?_⟩ <;> simp [multi_source_retrieve_core]

/-! ## C3 -/

/-- C3: in a successful retrieval every returned candidate's
`weighted_score` is its raw `score` times its source's configured
weight, the merged output is sorted by `weighted_score` descending, and
the sort is stable: restricted to any fixed weighted score, the output
preserves the insertion order public-then-private-then-conversation,
each source in its returned order.  The output is therefore determined
by the source results. -/
theorem C3_weighted_merge_order (pw pv cw : ℚ) (incl : Bool)
    (l₁ l₂ l₃ : List Cand) :
    (∀ c ∈ multi_source_retrieve_core pw pv cw (.ok l₁) (.ok l₂) (.ok l₃) incl,
        c.weightedScore = c.score * sourceWeight pw pv cw c.sourceType)
    ∧ List.Sorted byWeightedDesc
        (multi_source_retrieve_core pw pv cw (.ok l₁) (.ok l₂) (.ok l₃) incl)
    ∧ (∀ v : ℚ,
        (multi_source_retrieve_core pw pv cw (.ok l₁) (.ok l₂) (.ok l₃) incl).filter
            (fun c => decide (c.weightedScore = v))
          = (l₁.map (tagCand .pub pw) ++ l₂.map (tagCand .priv pv)
              ++ (if incl then l₃.map (tagCand .conv cw) else [])).filter
            (fun c => decide (c.weightedScore = v))) := by
  refine ⟨?_, ?_, ?_⟩
  · intro c hc
    have hmem : c ∈ l₁.map (tagCand .pub pw) ++ l₂.map (tagCand .priv pv)
        ++ (if incl then l₃.map (tagCand .conv cw) else []) := by
      simpa [multi_source_retrieve_core, List.mem_insertionSort] using hc
    simp only [List.mem_append, List.mem_map] at hmem
    rcases hmem with (⟨x, _, rfl⟩ | ⟨x, _, rfl⟩) | hconv
    · simp [tagCand, sourceWeight]
    · simp [tagCand, sourceWeight]
    · rcases hincl : incl with _ | _
      · rw [hincl] at hconv
        simp at hconv
      · rw [hincl] at hconv
        simp only [if_true, List.mem_map] at hconv
        obtain ⟨x, _, rfl⟩ := hconv
        simp [tagCand, sourceWeight]
  · simpa [multi_source_retrieve_core] using
      List.sorted_insertionSort byWeightedDesc
        (l₁.map (tagCand .pub pw) ++ l₂.map (tagCand .priv pv)
          ++ (if incl then l₃.map (tagCand .conv cw) else []))
  · intro v
    simpa [multi_source_retrieve_core] using
      insertionSort_filter_key (fun c : Cand => c.weightedScore) v
        (l₁.map (tagCand .pub pw) ++ l₂.map (tagCand .priv pv)
          ++ (if incl then l₃.map (tagCand .conv cw) else []))

/-! ## C1 -/

/-- Distinct user ids give distinct partition names. -/
theorem user_partition_inj {A B : String}
    (h : "user_" ++ A = "user_" ++ B) : A = B := by
  have hd := congrArg String.data h
  rw [String.data_append, String.data_append] at hd
  exact String.ext (List.append_cancel_left hd)

/-- C1: partition isolation of private and conversation retrieval.  The
private-collection search and the conversation search issued for user
`A` are scoped to `partition_names = ["user_{A}"]`, so (under the store
contract that only rows of the listed partitions are returned) every
returned row lives in `A`'s partition — in particular not in the
partition of any other user `B`. -/
theorem C1_no_cross_user_leakage (st : VStore) (A B : String)
    (k₁ k₂ : ℕ) (hAB : A ≠ B) :
    (∀ r ∈ privateSearchRows st A k₁,
        r.partition = "user_" ++ A ∧ r.partition ≠ "user_" ++ B)
    ∧ (∀ r ∈ convSearchRows st A k₂,
        r.partition = "user_" ++ A ∧ r.partition ≠ "user_" ++ B) := by
  have key : ∀ (r : VRow) (name : String) (k : ℕ),
      r ∈ st.search name k (some ["user_" ++ A]) true →
      r.partition = "user_" ++ A ∧ r.partition ≠ "user_" ++ B := by
    intro r name k hr
    have hr' := List.mem_of_mem_take hr
    rw [List.mem_filter] at hr'
    have hp := hr'.2
    simp only [Bool.and_eq_true, beq_iff_eq] at hp
    have hpart : r.partition ∈ ["user_" ++ A] := by
      simpa [List.contains] using hp.1.2
    have hA : r.partition = "user_" ++ A := by simpa using hpart
    refine ⟨hA, fun hB => hAB (user_partition_inj (hA ▸ hB))⟩
  refine ⟨fun r hr => key r _ _ hr, fun r hr => ?_⟩
  rw [convSearchRows] at hr
  by_cases hpart : st.hasPartition "conversations" ("user_" ++ A)
  · rw [if_pos hpart] at hr
    exact key r _ _ hr
  · rw [if_neg hpart] at hr
    exact absurd hr (List.not_mem_nil r)

/-! ## C4 -/

/-- `candidates` is returned unchanged when there are no scores to
assign (the malformed-response case `scores = []`). -/
theorem assignRerankScores_nil (l : List Cand) :
    assignRerankScores l [] = l := by
  cases l <;> rfl

/-- Assigning rerank scores does not change the number of candidates. -/
theorem assignRerankScores_length :
    ∀ (l : List Cand) (s : List ℚ), (assignRerankScores l s).length = l.length
  | [], _ => rfl
  | _ :: _, [] => rfl
  | _ :: l, _ :: s => by
    simp [assignRerankScores, assignRerankScores_length l s]

/-- C4 (amended): the rerank stage.  (i) When the candidate pool does
not exceed `top_k`, reranking is skipped: the result is plain
truncation whatever the endpoint would have answered.  (ii) On an
endpoint exception (error, timeout, unparsable body), (iii) on a 200
response carrying no scores (candidates still unscored), and (iv) on a
non-200 response, the pre-rerank `weighted_score` ordering is retained
unmodified and truncated.  (v) In every case the output has exactly
`min top_k (number of candidates)` elements.  The claim's blanket
"malformed response keeps the ordering unmodified" does not hold: a 200
response whose nonempty scores list is misaligned with the candidates
is applied partially and re-sorted, which can change the ordering — see
the counterexample. -/
theorem C4_rerank_fallback_truncation (cands : List Cand) (top_k : ℕ)
    (rerankFlag : Bool) :
    (∀ resp : RerankResp, cands.length ≤ top_k →
        select_candidates rerankFlag resp cands top_k = cands.take top_k)
    ∧ (rerank (.error ()) cands top_k = cands.take top_k)
    ∧ ((∀ c ∈ cands, c.rerankScore = none) →
        rerank (.ok (200, [])) cands top_k = cands.take top_k)
    ∧ (∀ (status : ℕ) (scores : List ℚ), status ≠ 200 →
        rerank (.ok (status, scores)) cands top_k = cands.take top_k)
    ∧ (∀ resp : RerankResp,
        (rerank resp cands top_k).length = min top_k cands.length) := by
  refine ⟨?_, rfl, ?_, ?_, ?_⟩
  · intro resp hle
    rw [select_candidates, if_neg]
    intro hcond
    exact absurd hle (Nat.not_le.mpr hcond.2)
  · intro hnone
    have hsorted : List.Sorted byRerankDesc cands := by
      apply List.pairwise_of_forall_mem_list
      intro a ha b hb
      show rerankKey b ≤ rerankKey a
      rw [rerankKey, rerankKey, hnone a ha, hnone b hb]
    rw [rerank, if_pos rfl, assignRerankScores_nil,
      List.Sorted.insertionSort_eq hsorted]
  · intro status scores hstatus
    rw [rerank, if_neg hstatus]
  · intro resp
    match resp with
    | .error _ => simp [rerank]
    | .ok (status, scores) =>
      rw [rerank]
      by_cases h200 : status = 200
      · rw [if_pos h200, List.length_take, List.length_insertionSort,
          assignRerankScores_length]
      · rw [if_neg h200, List.length_take]

/-! ## C9 -/

/-- The number of candidates the code requests from the private source:
`int(top_k * 0.4)` truncates, so at `top_k = 12` (the pool size for the
default `top_k = 6` doubled by `retrieve_and_generate`) and the default
private weight `0.4` the code asks for `4` candidates while rounding
`4.8` to the nearest integer gives `5` — with five valid private rows
available, the private search returns `4` rows, not the claimed
`round(top_k × w) = 5`. -/
theorem C9_counterexample :
    reqCount 12 (2/5) = 4
    ∧ round ((12 : ℚ) * (2/5)) = 5
    ∧ (privateSearchRows
        ⟨List.replicate 5
          { collection := "private_documents", partition := "user_u1",
            id := "d#0", ownerId := "u1", score := 1, weight := 1,
            valid := true, title := "t", docType := "notice",
            chunkContent := "x" }⟩ "u1" (reqCount 12 (2/5))).length = 4 := by
  have h4 : reqCount 12 (2/5) = 4 := by
    rw [reqCount, show ((12 : ℕ) : ℚ) * (2/5) = 24/5 by norm_num,
      show ⌊(24/5 : ℚ)⌋ = 4 by rw [Int.floor_eq_iff] <;> norm_num]
    rfl
  refine ⟨h4, ?_, ?_⟩
  · rw [round_eq, show (12 : ℚ) * (2/5) + 1/2 = 53/10 by norm_num]
    rw [Int.floor_eq_iff] <;> norm_num
  · rw [h4]
    decide

/-- C9 (amended): each source retrieval requests `int(top_k × w)`
(truncation, not rounding-to-nearest) candidates; whenever the store
can supply that many, the retrieval output contains exactly that many
candidates of the corresponding source, and the conversation source is
consulted only when `include_conversations` is true — with it false the
outcome is independent of whatever the conversation source would have
returned. -/
theorem C9_request_counts_and_gating (st : VStore) (pw pv cw : ℚ)
    (user_id : String) (top_k : ℕ) (incl : Bool)
    (hpw : 0 < pw ∧ pw ≤ 1) (hpv : 0 < pv ∧ pv ≤ 1)
    (hcw : 0 < cw ∧ cw ≤ 1) :
    ((publicSearchRows st (reqCount top_k pw)).length = reqCount top_k pw →
        (multi_source_retrieve st pw pv cw user_id top_k incl).countP
            (fun c => c.sourceType == SourceType.pub)
          = reqCount top_k pw)
    ∧ ((privateSearchRows st user_id (reqCount top_k pv)).length
          = reqCount top_k pv →
        (multi_source_retrieve st pw pv cw user_id top_k incl).countP
            (fun c => c.sourceType == SourceType.priv)
          = reqCount top_k pv)
    ∧ (incl = true →
        (convSearchRows st user_id (reqCount top_k cw)).length
            = reqCount top_k cw →
        (multi_source_retrieve st pw pv cw user_id top_k incl).countP
            (fun c => c.sourceType == SourceType.conv)
          = reqCount top_k cw)
    ∧ (incl = false →
        ∀ convRes convRes' : Except Unit (List Cand),
          multi_source_retrieve_core pw pv cw
              (.ok ((publicSearchRows st (reqCount top_k pw)).map rowToCand))
              (.ok ((privateSearchRows st user_id (reqCount top_k pv)).map rowToCand))
              convRes incl
            = multi_source_retrieve_core pw pv cw
              (.ok ((publicSearchRows st (reqCount top_k pw)).map rowToCand))
              (.ok ((privateSearchRows st user_id (reqCount top_k pv)).map rowToCand))
              convRes' incl) := by
  have hcount : ∀ (t : SourceType) (l₁ l₂ l₃ : List Cand),
      (multi_source_retrieve_core pw pv cw (.ok l₁) (.ok l₂) (.ok l₃) incl).countP
          (fun c => c.sourceType == t)
        = l₁.countP (fun c => (tagCand .pub pw c).sourceType == t)
          + l₂.countP (fun c => (tagCand .priv pv c).sourceType == t)
          + (if incl then l₃.countP (fun c => (tagCand .conv cw c).sourceType == t) else 0) := by
    intro t l₁ l₂ l₃
    rw [multi_source_retrieve_core]
    rw [(List.perm_insertionSort byWeightedDesc _).countP_eq]
    rcases incl with _ | _ <;>
      simp only [List.countP_append, List.countP_map, Function.comp_def,
        Bool.false_eq_true, if_false, if_true, List.append_nil,
        List.countP_nil, Nat.add_zero]
  refine ⟨?_, ?_, ?_, ?_⟩
  · intro hlen
    rw [multi_source_retrieve, search_conversations, hcount,
      show (fun c : Cand => (tagCand .pub pw c).sourceType == SourceType.pub)
        = fun _ => true from rfl,
      show (fun c : Cand => (tagCand .priv pv c).sourceType == SourceType.pub)
        = fun _ => false from rfl,
      show (fun c : Cand => (tagCand .conv cw c).sourceType == SourceType.pub)
        = fun _ => false from rfl]
    simp only [List.countP_true, List.countP_false, List.length_map,
      Function.const_apply, ite_self, Nat.add_zero]
    exact hlen
  · intro hlen
    rw [multi_source_retrieve, search_conversations, hcount,
      show (fun c : Cand => (tagCand .pub pw c).sourceType == SourceType.priv)
        = fun _ => false from rfl,
      show (fun c : Cand => (tagCand .priv pv c).sourceType == SourceType.priv)
        = fun _ => true from rfl,
      show (fun c : Cand => (tagCand .conv cw c).sourceType == SourceType.priv)
        = fun _ => false from rfl]
    simp only [List.countP_true, List.countP_false, List.length_map,
      Function.const_apply, ite_self, Nat.add_zero, Nat.zero_add]
    exact hlen
  · intro hincl hlen
    rw [multi_source_retrieve, search_conversations, hcount, hincl,
      show (fun c : Cand => (tagCand .pub pw c).sourceType == SourceType.conv)
        = fun _ => false from rfl,
      show (fun c : Cand => (tagCand .priv pv c).sourceType == SourceType.conv)
        = fun _ => false from rfl,
      show (fun c : Cand => (tagCand .conv cw c).sourceType == SourceType.conv)
        = fun _ => true from rfl]
    simp only [List.countP_true, List.countP_false, List.length_map,
      Function.const_apply, if_true, Nat.add_zero, Nat.zero_add]
    exact hlen
  · intro hincl convRes convRes'
    rw [hincl]
    unfold multi_source_retrieve_core
    simp

/-- Witness for C1 at a concrete store and the distinct users "alice"
and "bob". -/
theorem C1_no_cross_user_leakage_witness :
    (∀ r ∈ privateSearchRows
        ⟨[{ collection := "private_documents", partition := "user_alice",
            id := "da#0", ownerId := "alice", score := 1, weight := 1,
            valid := true, title := "ta", docType := "notice",
            chunkContent := "xa" },
          { collection := "private_documents", partition := "user_bob",
            id := "db#0", ownerId := "bob", score := 1, weight := 1,
            valid := true, title := "tb", docType := "notice",
            chunkContent := "xb" }]⟩ "alice" 5,
        r.partition = "user_" ++ "alice" ∧ r.partition ≠ "user_" ++ "bob")
    ∧ (∀ r ∈ convSearchRows
        ⟨[{ collection := "private_documents", partition := "user_alice",
            id := "da#0", ownerId := "alice", score := 1, weight := 1,
            valid := true, title := "ta", docType := "notice",
            chunkContent := "xa" },
          { collection := "private_documents", partition := "user_bob",
            id := "db#0", ownerId := "bob", score := 1, weight := 1,
            valid := true, title := "tb", docType := "notice",
            chunkContent := "xb" }]⟩ "alice" 5,
        r.partition = "user_" ++ "alice" ∧ r.partition ≠ "user_" ++ "bob") :=
  C1_no_cross_user_leakage _ "alice" "bob" 5 5 (by decide)

/-- Witness for C4 at a concrete candidate and pool sizes. -/
theorem C4_rerank_fallback_truncation_witness :
    (select_candidates true (.error ())
        [{ id := "c", score := 1, weight := 1, sourceType := .pub,
           weightedScore := 1, rerankScore := none, query := none,
           answer := none, docType := none, title := none,
           chunkContent := none }] 2
      = [{ id := "c", score := 1, weight := 1, sourceType := .pub,
           weightedScore := 1, rerankScore := none, query := none,
           answer := none, docType := none, title := none,
           chunkContent := none }].take 2)
    ∧ (rerank (.ok (200, []))
        [{ id := "c", score := 1, weight := 1, sourceType := .pub,
           weightedScore := 1, rerankScore := none, query := none,
           answer := none, docType := none, title := none,
           chunkContent := none }] 1
      = [{ id := "c", score := 1, weight := 1, sourceType := .pub,
           weightedScore := 1, rerankScore := none, query := none,
           answer := none, docType := none, title := none,
           chunkContent := none }].take 1)
    ∧ (rerank (.ok (500, []))
        [{ id := "c", score := 1, weight := 1, sourceType := .pub,
           weightedScore := 1, rerankScore := none, query := none,
           answer := none, docType := none, title := none,
           chunkContent := none }] 1
      = [{ id := "c", score := 1, weight := 1, sourceType := .pub,
           weightedScore := 1, rerankScore := none, query := none,
           answer := none, docType := none, title := none,
           chunkContent := none }].take 1) :=
  ⟨(C4_rerank_fallback_truncation _ 2 true).1 (.error ()) (by decide),
   (C4_rerank_fallback_truncation _ 1 true).2.2.1 (by decide),
   (C4_rerank_fallback_truncation _ 1 true).2.2.2.1 500 [] (by decide)⟩

/-- C4 counterexample to the claim as stated: a malformed 200 response
whose nonempty scores list is misaligned with the candidates (two
scores for three candidates) is applied partially at
rag_service_old.py lines 174–178 — the first two candidates receive
`rerank_score` 1 and 2, the third falls back to the default key 0 —
and the re-sort changes the ordering from A, B, C to B, A, C instead
of retaining the pre-rerank order. -/
theorem C4_counterexample :
    (rerank (.ok (200, ([1, 2] : List ℚ)))
        [⟨"A", 1, 1, .pub, 3, none, none, none, none, none, none⟩,
         ⟨"B", 1, 1, .pub, 2, none, none, none, none, none, none⟩,
         ⟨"C", 1, 1, .pub, 1, none, none, none, none, none, none⟩]
        3).map Cand.id
      = ["B", "A", "C"]
    ∧ (["B", "A", "C"] : List String) ≠ ["A", "B", "C"] := by
  refine ⟨by decide, by decide⟩

/-- Witness for C9 (amended) at an empty store, unit weights and
`top_k = 0`. -/
theorem C9_request_counts_and_gating_witness :
    (multi_source_retrieve ⟨[]⟩ 1 1 1 "u" 0 false).countP
        (fun c => c.sourceType == SourceType.pub)
      = reqCount 0 1 :=
  (C9_request_counts_and_gating ⟨[]⟩ 1 1 1 "u" 0 false
    ⟨one_pos, le_refl 1⟩ ⟨one_pos, le_refl 1⟩ ⟨one_pos, le_refl 1⟩).1
    (by simp [publicSearchRows, VStore.search, reqCount])

/-! ## C7 -/

/-- C7 (amended): for a fixed document record the chunk ids written by
`_ingest_document` are fully determined by the record's `doc_id` and
the number of chunks: they are exactly `"{doc_id}#{i}"` for `i`
contiguous from `0` — so re-running ingestion for the *same* document
record writes the same ids and overwrites idempotently. -/
theorem C7_ids_deterministic_contiguous (doc_id : String)
    (chunks : List String) :
    ingest_document_ids doc_id chunks
      = (List.range chunks.length).map
          (fun i => doc_id ++ "#" ++ toString i) := by
  rw [ingest_document_ids,
    show (fun p : ℕ × String => doc_id ++ "#" ++ toString p.1)
      = (fun i => doc_id ++ "#" ++ toString i) ∘ Prod.fst from rfl,
    ← List.map_map, List.enum_map_fst]

/-- C7 counterexample: `create_document` draws a fresh random
`uuid4().hex` on every call, so ingesting the same content twice (two
`create_document` calls, two distinct uuid draws — distinctness being
the defining property of `uuid4`) produces different chunk ids rather
than identical, overwriting ones. -/
theorem C7_counterexample :
    create_document_chunk_ids "00000000000000000000" ["hello"]
      ≠ create_document_chunk_ids "11111111111111111111" ["hello"] := by
  decide

/-! ## C10 -/

/-- Forgetting the chunk-level `weight` field of a candidate (the
document-level relevance multiplier, adjustable by feedback). -/
def eraseWeightCand (c : Cand) : Cand :=
  { c with weight := 0 }

/-- Rewriting a stored row's chunk-level `weight` field, leaving every
other field unchanged. -/
def setRowWeight (f : VRow → ℚ) (r : VRow) : VRow :=
  { r with weight := f r }

/-- `eraseWeightCand` respects the retrieval ordering: the
`weighted_score` comparison never reads the chunk-level weight. -/
theorem map_eraseWeight_insertionSort (l : List Cand) :
    (List.insertionSort byWeightedDesc l).map eraseWeightCand
      = List.insertionSort byWeightedDesc (l.map eraseWeightCand) :=
  List.map_insertionSort byWeightedDesc byWeightedDesc eraseWeightCand l
    (fun _ _ _ _ => Iff.rfl)

/-- The merge-and-sort of `_multi_source_retrieve` is determined, up to
the chunk-level weight field, by the source results up to that same
field. -/
theorem core_respects_eraseWeight (pw pv cw : ℚ) (incl : Bool)
    (l₁ l₂ l₃ l₁' l₂' l₃' : List Cand)
    (h₁ : l₁.map eraseWeightCand = l₁'.map eraseWeightCand)
    (h₂ : l₂.map eraseWeightCand = l₂'.map eraseWeightCand)
    (h₃ : l₃.map eraseWeightCand = l₃'.map eraseWeightCand) :
    (multi_source_retrieve_core pw pv cw (.ok l₁) (.ok l₂) (.ok l₃) incl).map
        eraseWeightCand
      = (multi_source_retrieve_core pw pv cw (.ok l₁') (.ok l₂') (.ok l₃')
          incl).map eraseWeightCand := by
  have tagStep : ∀ (t : SourceType) (w : ℚ) (l l' : List Cand),
      l.map eraseWeightCand = l'.map eraseWeightCand →
      (l.map (tagCand t w)).map eraseWeightCand
        = (l'.map (tagCand t w)).map eraseWeightCand := by
    intro t w l l' h
    rw [List.map_map, List.map_map,
      show eraseWeightCand ∘ tagCand t w = tagCand t w ∘ eraseWeightCand
        from rfl,
      ← List.map_map, ← List.map_map, h]
  rw [multi_source_retrieve_core, multi_source_retrieve_core,
    map_eraseWeight_insertionSort, map_eraseWeight_insertionSort]
  congr 1
  rw [List.map_append, List.map_append, List.map_append, List.map_append,
    tagStep _ _ _ _ h₁, tagStep _ _ _ _ h₂]
  rcases incl with _ | _
  · rfl
  · rw [if_pos rfl, if_pos rfl, tagStep _ _ _ _ h₃]

/-- C10: the chunk-level `weight` stored on retrieved chunks is never
factored into retrieval: rewriting every stored row's `weight` field
arbitrarily (via any function `f` of the row) leaves the entire
retrieval output — ordering, scores, weighted scores, contents —
unchanged except for the copied-through weight field itself.
`weighted_score` depends only on the raw similarity score and the
per-source weight. -/
theorem C10_chunk_weight_never_ranks (st : VStore) (f : VRow → ℚ)
    (pw pv cw : ℚ) (user_id : String) (top_k : ℕ) (incl : Bool) :
    (multi_source_retrieve ⟨st.rows.map (setRowWeight f)⟩ pw pv cw user_id
        top_k incl).map eraseWeightCand
      = (multi_source_retrieve st pw pv cw user_id top_k incl).map
          eraseWeightCand := by
  have hsearch : ∀ (name : String) (k : ℕ) (parts : Option (List String))
      (fv : Bool),
      VStore.search ⟨st.rows.map (setRowWeight f)⟩ name k parts fv
        = (VStore.search st name k parts fv).map (setRowWeight f) := by
    intro name k parts fv
    rw [VStore.search, VStore.search, List.filter_map, List.map_take]
    rfl
  have hpart : ∀ c p : String,
      VStore.hasPartition ⟨st.rows.map (setRowWeight f)⟩ c p
        = st.hasPartition c p := by
    intro c p
    rw [VStore.hasPartition, VStore.hasPartition, List.any_map]
    rfl
  have hconv : ∀ k : ℕ,
      convSearchRows ⟨st.rows.map (setRowWeight f)⟩ user_id k
        = (convSearchRows st user_id k).map (setRowWeight f) := by
    intro k
    rw [convSearchRows, convSearchRows, hpart]
    by_cases hp : st.hasPartition "conversations" ("user_" ++ user_id)
    · rw [if_pos hp, if_pos hp, hsearch]
    · rw [if_neg hp, if_neg hp, List.map_nil]
  rw [multi_source_retrieve, multi_source_retrieve, publicSearchRows,
    publicSearchRows, privateSearchRows, privateSearchRows,
    search_conversations, search_conversations, hsearch, hsearch, hconv,
    List.map_map, List.map_map, List.map_map]
  exact core_respects_eraseWeight pw pv cw incl _ _ _ _ _ _
    (by rw [List.map_map, List.map_map]; rfl)
    (by rw [List.map_map, List.map_map]; rfl)
    (by rw [List.map_map, List.map_map]; rfl)

/-! ## C5 -/

/-- Unfolding of the estimated-cost sum. -/
theorem est_sum_cons (c : Cand) (l : List Cand) :
    est_sum (c :: l) = est_tokens (candidate_text c) + est_sum l := by
  simp [est_sum]

/-- The accumulation loop of `_build_context`, specified: starting from
a running total within budget, the emitted blocks are a whole-block
prefix of the rendered blocks, the final accumulated estimate stays
within `token_limit`, and if a candidate was cut off then already the
next block would have overflowed the budget. -/
theorem build_context_parts_spec (token_limit : ℚ) :
    ∀ (cands : List Cand) (i : ℕ) (total : ℚ), total ≤ token_limit →
      ∃ n, build_context_parts token_limit cands i total
            = (all_context_blocks i cands).take n
        ∧ total + est_sum (cands.take n) ≤ token_limit
        ∧ (n < cands.length →
            token_limit < total + est_sum (cands.take (n + 1)))
  | [], i, total, htot =>
    ⟨0, by rw [build_context_parts, all_context_blocks, List.take_nil],
      by simpa [est_sum] using htot, by simp⟩
  | c :: rest, i, total, htot => by
    rw [build_context_parts]
    by_cases hov : token_limit < total + est_tokens (candidate_text c)
    · refine ⟨0, ?_, ?_, ?_⟩
      · rw [if_pos hov, List.take_zero]
      · simpa [est_sum] using htot
      · intro _
        simpa [est_sum_cons, est_sum] using hov
    · rw [if_neg hov]
      push_neg at hov
      obtain ⟨n, h1, h2, h3⟩ := build_context_parts_spec token_limit rest
        (i + 1) (total + est_tokens (candidate_text c)) hov
      refine ⟨n + 1, ?_, ?_, ?_⟩
      · rw [all_context_blocks, List.take_succ_cons, h1]
      · rw [List.take_succ_cons, est_sum_cons]
        linarith
      · intro hlt
        have hrest := h3 (by simpa using hlt)
        rw [List.take_succ_cons, est_sum_cons]
        linarith

/-- C5 (amended): for a nonnegative `token_limit` the context builder
consumes candidates in rank order and emits a whole-block prefix: some
`n` candidates are rendered completely (never truncated mid-content)
and everything from the first overflowing block on is discarded; the
total *per-block* estimated token cost (`len(text) × 1.5` summed over
the included candidate texts — the quantity the code budgets) never
exceeds `token_limit`, and when a candidate is excluded, including it
would overflow.  The estimate counts the rendered candidate texts; the
`[参考资料 N]` labels and joining newlines of the final string are not
budgeted (see the counterexample). -/
theorem C5_context_budget (cands : List Cand) (token_limit : ℚ)
    (h : 0 ≤ token_limit) :
    ∃ n, build_context_parts token_limit cands 0 0
          = (all_context_blocks 0 cands).take n
      ∧ est_sum (cands.take n) ≤ token_limit
      ∧ (n < cands.length →
          token_limit < est_sum (cands.take (n + 1))) := by
  obtain ⟨n, h1, h2, h3⟩ := build_context_parts_spec token_limit cands 0 0 h
  exact ⟨n, h1, by linarith, fun hn => by linarith [h3 hn]⟩

/-- Witness for C5 (amended) at the empty candidate list and
`token_limit = 0`. -/
theorem C5_context_budget_witness :
    ∃ n, build_context_parts 0 ([] : List Cand) 0 0
          = (all_context_blocks 0 ([] : List Cand)).take n
      ∧ est_sum (([] : List Cand).take n) ≤ 0
      ∧ (n < ([] : List Cand).length →
          (0 : ℚ) < est_sum (([] : List Cand).take (n + 1))) :=
  C5_context_budget [] 0 (le_refl 0)

/-- C5 counterexample to the claim as stated: the budget only counts
`len(text) × 1.5` over the raw candidate texts, while the returned
context string additionally contains the `[参考资料 N]` label lines and
joining newlines — so the estimated token cost of the *produced context
string* can exceed `token_limit`.  Here one document candidate renders
to a 58-character text (estimate 87 ≤ 100, so it is included), but the
final context string has 68 characters: estimate 102 > 100. -/
theorem C5_counterexample :
    (100 : ℚ) < est_tokens (build_context
      [{ id := "c", score := 1, weight := 1, sourceType := SourceType.pub,
         weightedScore := 1, rerankScore := none, query := none,
         answer := none, docType := none, title := none,
         chunkContent := some "aaaaaaaaaaaaaaaaaaaaaaaaaaaaaaaaaaaaaaaa" }]
      100) := by
  have hcond : ¬ ((100 : ℚ) < 0 + est_tokens (candidate_text
      { id := "c", score := 1, weight := 1, sourceType := SourceType.pub,
        weightedScore := 1, rerankScore := none, query := none,
        answer := none, docType := none, title := none,
        chunkContent := some "aaaaaaaaaaaaaaaaaaaaaaaaaaaaaaaaaaaaaaaa" })) := by
    rw [est_tokens, show (candidate_text
      { id := "c", score := 1, weight := 1, sourceType := SourceType.pub,
        weightedScore := 1, rerankScore := none, query := none,
        answer := none, docType := none, title := none,
        chunkContent := some "aaaaaaaaaaaaaaaaaaaaaaaaaaaaaaaaaaaaaaaa" }).length
      = 58 from rfl]
    norm_num
  rw [build_context, build_context_parts, if_neg hcond, build_context_parts]
  rw [est_tokens, show (String.intercalate "\n" [context_block 0
      { id := "c", score := 1, weight := 1, sourceType := SourceType.pub,
        weightedScore := 1, rerankScore := none, query := none,
        answer := none, docType := none, title := none,
        chunkContent := some "aaaaaaaaaaaaaaaaaaaaaaaaaaaaaaaaaaaaaaaa" }]).length
      = 68 from rfl]
  norm_num

/-! ## C6 -/

/-- A nonempty string has positive length. -/
theorem str_length_pos {s : String} (h : s ≠ "") : 0 < s.length := by
  cases s with
  | mk data =>
    cases data with
    | nil => exact absurd rfl h
    | cons c cs => simp [String.length]

/-- `prev_text[-chunk_overlap:]` has at most `chunk_overlap`
characters. -/
theorem takeRightChars_length_le (s : String) (n : ℕ) :
    (takeRightChars s n).length ≤ n := by
  rw [takeRightChars]
  show (s.data.drop (s.data.length - n)).length ≤ n
  rw [List.length_drop]
  omega

/-- Every chunk emitted by the greedy sentence accumulation either fits
in `chunk_size` or is one of the input sentences (necessarily a single
over-long sentence, passed through verbatim) or the incoming buffer. -/
theorem sentenceAccum_bound (cs : ℕ) :
    ∀ (ss : List String) (cur : String) (curLen : ℕ),
      curLen = cur.length →
      ∀ c ∈ sentenceAccum cs ss cur curLen,
        c.length ≤ cs ∨ ((c ∈ ss ∨ c = cur) ∧ cs < c.length)
  | [], cur, curLen, hlen => by
    intro c hc
    rw [sentenceAccum] at hc
    by_cases hne : cur ≠ ""
    · rw [if_pos hne] at hc
      have : c = cur := by simpa using hc
      subst this
      by_cases hb : c.length ≤ cs
      · exact Or.inl hb
      · exact Or.inr ⟨Or.inr rfl, Nat.lt_of_not_le hb⟩
    · rw [if_neg hne] at hc
      exact absurd hc (List.not_mem_nil c)
  | s :: rest, cur, curLen, hlen => by
    intro c hc
    rw [sentenceAccum] at hc
    by_cases hov : cs < curLen + s.length
    · rw [if_pos hov, List.mem_append] at hc
      rcases hc with hc | hc
      · by_cases hne : cur ≠ ""
        · rw [if_pos hne] at hc
          have : c = cur := by simpa using hc
          subst this
          by_cases hb : c.length ≤ cs
          · exact Or.inl hb
          · exact Or.inr ⟨Or.inr rfl, Nat.lt_of_not_le hb⟩
        · rw [if_neg hne] at hc
          exact absurd hc (List.not_mem_nil c)
      · rcases sentenceAccum_bound cs rest s s.length rfl c hc with hb | ⟨hm, hlong⟩
        · exact Or.inl hb
        · refine Or.inr ⟨Or.inl ?_, hlong⟩
          rcases hm with hm | hm
          · exact List.mem_cons_of_mem s hm
          · exact hm ▸ List.mem_cons_self s rest
    · rw [if_neg hov] at hc
      have hlen' : curLen + s.length = (cur ++ s).length := by
        rw [String.length_append, hlen]
      rcases sentenceAccum_bound cs rest (cur ++ s) (curLen + s.length) hlen'
          c hc with hb | ⟨hm, hlong⟩
      · exact Or.inl hb
      · rcases hm with hm | hm
        · exact Or.inr ⟨Or.inl (List.mem_cons_of_mem s hm), hlong⟩
        · -- the buffer grown within budget cannot be over-long
          exfalso
          rw [hm, ← hlen'] at hlong
          exact absurd hlong (Nat.not_lt.mpr (Nat.le_of_not_lt hov))

/-- `_split_long_paragraph` emits only chunks that fit in `chunk_size`,
except single over-long sentences passed through verbatim. -/
theorem split_long_paragraph_bound (cs : ℕ) (para : String) :
    ∀ c ∈ split_long_paragraph cs para,
      c.length ≤ cs ∨ (c ∈ sentencesOf para ∧ cs < c.length) := by
  intro c hc
  rcases sentenceAccum_bound cs (sentencesOf para) "" 0 rfl c hc with hb | ⟨hm, hlong⟩
  · exact Or.inl hb
  · rcases hm with hm | hm
    · exact Or.inr ⟨hm, hlong⟩
    · exact absurd hlong (by rw [hm]; exact Nat.not_lt.mpr (Nat.zero_le cs))

/-- Every chunk emitted by the paragraph accumulation of `split_text`
(before overlap) has length at most `3·chunk_size − 2` (the slack comes
from the `"\n\n"` separators the running length does not count), except
chunks that are a single over-long sentence of one of the paragraphs. -/
theorem splitParasAccum_bound (cs : ℕ) (hcs : 0 < cs) :
    ∀ (ps : List String) (cur : String) (curLen : ℕ),
      ((cur = "" ∧ curLen = 0)
        ∨ (1 ≤ curLen ∧ curLen ≤ cs ∧ cur.length ≤ 3 * curLen - 2)) →
      ∀ c ∈ splitParasAccum cs ps cur curLen,
        c.length ≤ 3 * cs - 2
        ∨ ∃ p ∈ ps, c ∈ sentencesOf (pyStrip p) ∧ cs < c.length
  | [], cur, curLen, hinv => by
    intro c hc
    rw [splitParasAccum] at hc
    by_cases hne : cur ≠ ""
    · rw [if_pos hne] at hc
      have : c = cur := by simpa using hc
      subst this
      rcases hinv with ⟨h1, _⟩ | ⟨h1, h2, h3⟩
      · exact absurd h1 hne
      · exact Or.inl (by omega)
    · rw [if_neg hne] at hc
      exact absurd hc (List.not_mem_nil c)
  | p₀ :: rest, cur, curLen, hinv => by
    intro c hc
    rw [splitParasAccum] at hc
    by_cases hempty : pyStrip p₀ = ""
    · rw [if_pos hempty] at hc
      rcases splitParasAccum_bound cs hcs rest cur curLen hinv c hc with hb | ⟨p, hp, hs⟩
      · exact Or.inl hb
      · exact Or.inr ⟨p, List.mem_cons_of_mem p₀ hp, hs⟩
    · rw [if_neg hempty] at hc
      have hp₀pos : 0 < (pyStrip p₀).length := str_length_pos hempty
      by_cases hlong : cs < (pyStrip p₀).length
      · rw [if_pos hlong, List.mem_append, List.mem_append] at hc
        rcases hc with (hc | hc) | hc
        · by_cases hne : cur ≠ ""
          · rw [if_pos hne] at hc
            have : c = cur := by simpa using hc
            subst this
            rcases hinv with ⟨h1, _⟩ | ⟨h1, h2, h3⟩
            · exact absurd h1 hne
            · exact Or.inl (by omega)
          · rw [if_neg hne] at hc
            exact absurd hc (List.not_mem_nil c)
        · rcases split_long_paragraph_bound cs (pyStrip p₀) c hc with hb | ⟨hm, hl⟩
          · exact Or.inl (by omega)
          · exact Or.inr ⟨p₀, List.mem_cons_self p₀ rest, hm, hl⟩
        · rcases splitParasAccum_bound cs hcs rest "" 0 (Or.inl ⟨rfl, rfl⟩) c hc
            with hb | ⟨p, hp, hs⟩
          · exact Or.inl hb
          · exact Or.inr ⟨p, List.mem_cons_of_mem p₀ hp, hs⟩
      · rw [if_neg hlong] at hc
        by_cases hfit : cs < curLen + (pyStrip p₀).length
        · rw [if_pos hfit, List.mem_cons] at hc
          rcases hc with hc | hc
          · subst hc
            rcases hinv with ⟨h1, h2⟩ | ⟨h1, h2, h3⟩
            · exact absurd hfit (by omega)
            · exact Or.inl (by omega)
          · have hinv' : (pyStrip p₀ = "" ∧ (pyStrip p₀).length = 0)
                ∨ (1 ≤ (pyStrip p₀).length ∧ (pyStrip p₀).length ≤ cs
                    ∧ (pyStrip p₀).length ≤ 3 * (pyStrip p₀).length - 2) :=
              Or.inr ⟨hp₀pos, Nat.le_of_not_lt hlong, by omega⟩
            rcases splitParasAccum_bound cs hcs rest (pyStrip p₀)
                (pyStrip p₀).length hinv' c hc with hb | ⟨p, hp, hs⟩
            · exact Or.inl hb
            · exact Or.inr ⟨p, List.mem_cons_of_mem p₀ hp, hs⟩
        · rw [if_neg hfit] at hc
          have hinv' : ((if cur ≠ "" then cur ++ "\n\n" ++ pyStrip p₀ else pyStrip p₀) = ""
                ∧ curLen + (pyStrip p₀).length = 0)
              ∨ (1 ≤ curLen + (pyStrip p₀).length
                  ∧ curLen + (pyStrip p₀).length ≤ cs
                  ∧ (if cur ≠ "" then cur ++ "\n\n" ++ pyStrip p₀
                      else pyStrip p₀).length ≤ 3 * (curLen + (pyStrip p₀).length) - 2) := by
            refine Or.inr ⟨by omega, by omega, ?_⟩
            by_cases hne : cur ≠ ""
            · rw [if_pos hne, String.length_append, String.length_append]
              have h2 : ("\n\n" : String).length = 2 := rfl
              rcases hinv with ⟨h1, _⟩ | ⟨h1, h2', h3⟩
              · exact absurd h1 hne
              · omega
            · rw [if_neg hne]
              rcases hinv with ⟨_, h1⟩ | ⟨h1, h2', h3⟩ <;> omega
          rcases splitParasAccum_bound cs hcs rest _ _ hinv' c hc with hb | ⟨p, hp, hs⟩
          · exact Or.inl hb
          · exact Or.inr ⟨p, List.mem_cons_of_mem p₀ hp, hs⟩

/-- Every chunk produced by the tail of `_add_overlap` extends one of
the original chunks by at most `chunk_overlap + 1` prefixed characters
(the overlap text and the joining line break), keeping the original
chunk as a contiguous part. -/
theorem addOverlapGo_spec (ov : ℕ) :
    ∀ (rest : List String) (prev : String),
      ∀ c' ∈ add_overlap.addOverlapGo ov prev rest,
        ∃ c ∈ rest, c'.length ≤ ov + 1 + c.length ∧ c.data <:+: c'.data
  | [], prev => by
    intro c' hc'
    exact absurd hc' (List.not_mem_nil c')
  | c :: rest, prev => by
    intro c' hc'
    rw [add_overlap.addOverlapGo, List.mem_cons] at hc'
    rcases hc' with hc' | hc'
    · subst hc'
      refine ⟨c, List.mem_cons_self c rest, ?_, ?_⟩
      · rw [String.length_append, String.length_append]
        have h1 : ("\n" : String).length = 1 := rfl
        have h2 := takeRightChars_length_le prev ov
        omega
      · rw [String.data_append]
        exact (List.suffix_append (takeRightChars prev ov ++ "\n").data
          c.data).isInfix
    · obtain ⟨c₀, hm, hb⟩ := addOverlapGo_spec ov rest c c' hc'
      exact ⟨c₀, List.mem_cons_of_mem c hm, hb⟩

/-- `_add_overlap` keeps each original chunk as a contiguous part of
the corresponding output chunk and adds at most `chunk_overlap + 1`
characters. -/
theorem add_overlap_spec (ov : ℕ) (chunks : List String) :
    ∀ c' ∈ add_overlap ov chunks,
      ∃ c ∈ chunks, c'.length ≤ ov + 1 + c.length ∧ c.data <:+: c'.data := by
  intro c' hc'
  cases chunks with
  | nil => exact absurd hc' (List.not_mem_nil c')
  | cons c rest =>
    rw [add_overlap, List.mem_cons] at hc'
    rcases hc' with hc' | hc'
    · subst hc'
      exact ⟨c', List.mem_cons_self c' rest, by omega, List.infix_refl c'.data⟩
    · obtain ⟨c₀, hm, hb⟩ := addOverlapGo_spec ov rest c c' hc'
      exact ⟨c₀, List.mem_cons_of_mem c hm, hb⟩

/-- C6 (amended): every chunk produced by `split_text` has length at
most `(3·chunk_size − 2) + chunk_overlap + 1` — the slack being the
blank-line separators not counted by the accumulation check (up to two
characters per merged paragraph, paragraphs being at least one
character) and the overlap prefix plus its joining line break — except
chunks containing a single unsplittable sentence longer than
`chunk_size`, which is passed through verbatim (and possibly prefixed
with overlap).  The claim's bound `chunk_size` itself does not hold:
see the counterexample. -/
theorem C6_chunk_length_bound (chunk_size chunk_overlap : ℕ)
    (paras : List String) (hcs : 0 < chunk_size)
    (hov : chunk_overlap < chunk_size) :
    ∀ c ∈ split_text chunk_size chunk_overlap paras,
      c.length ≤ 3 * chunk_size - 2 + chunk_overlap + 1
      ∨ ∃ p ∈ paras, ∃ s ∈ sentencesOf (pyStrip p),
          chunk_size < s.length ∧ s.data <:+: c.data := by
  intro c hc
  rw [split_text] at hc
  by_cases ho : 0 < chunk_overlap
      ∧ 1 < (splitParasAccum chunk_size paras "" 0).length
  · rw [if_pos ho] at hc
    obtain ⟨c₀, hc₀, hlen, hinfix⟩ := add_overlap_spec chunk_overlap _ c hc
    rcases splitParasAccum_bound chunk_size hcs paras "" 0 (Or.inl ⟨rfl, rfl⟩)
        c₀ hc₀ with hb | ⟨p, hp, hs, hlong⟩
    · exact Or.inl (by omega)
    · exact Or.inr ⟨p, hp, c₀, hs, hlong, hinfix⟩
  · rw [if_neg ho] at hc
    rcases splitParasAccum_bound chunk_size hcs paras "" 0 (Or.inl ⟨rfl, rfl⟩)
        c hc with hb | ⟨p, hp, hs, hlong⟩
    · exact Or.inl (by omega)
    · exact Or.inr ⟨p, hp, c, hs, hlong, List.infix_refl c.data⟩

/-- Witness for C6 (amended) at a concrete configuration, input and
produced chunk. -/
theorem C6_chunk_length_bound_witness :
    ("aaaa.\n\nbbbb." : String).length ≤ 3 * 10 - 2 + 3 + 1
    ∨ ∃ p ∈ ["aaaa.", "bbbb."], ∃ s ∈ sentencesOf (pyStrip p),
        10 < s.length ∧ s.data <:+: ("aaaa.\n\nbbbb." : String).data :=
  C6_chunk_length_bound 10 3 ["aaaa.", "bbbb."] (by decide) (by decide)
    "aaaa.\n\nbbbb." (by decide)

/-- C6 counterexample to the claim as stated: with `chunk_size = 10`
and two five-character paragraphs, the accumulation check counts
`5 + 5 = 10 ≤ 10` and merges them, but the produced chunk contains the
uncounted `"\n\n"` separator: its length is `12 > 10`, and it is not a
single unsplittable over-long sentence — every sentence of the input is
at most five characters long. -/
theorem C6_counterexample :
    split_text 10 0 ["aaaa.", "bbbb."] = ["aaaa.\n\nbbbb."]
    ∧ 10 < ("aaaa.\n\nbbbb." : String).length
    ∧ (∀ p ∈ ["aaaa.", "bbbb."], ∀ s ∈ sentencesOf (pyStrip p),
        s.length ≤ 5) := by
  refine ⟨by decide, by decide, by decide⟩

/-! ## C8 -/

/-- A nonempty pattern is never a prefix of the empty list. -/
theorem isPrefixOf_nil_eq_false {sep : List Char} (h : sep ≠ []) :
    sep.isPrefixOf ([] : List Char) = false := by
  cases sep with
  | nil => exact absurd rfl h
  | cons c cs => rfl

/-- A list is a Boolean prefix of itself followed by anything. -/
theorem isPrefixOf_append_self (l t : List Char) :
    l.isPrefixOf (l ++ t) = true :=
  List.isPrefixOf_iff_prefix.mpr (List.prefix_append l t)

/-- `hasSub sep s = false` means the pattern matches at no scan
position. -/
theorem noMatch_of_hasSub_false {sep s : List Char} (hsep : sep ≠ [])
    (h : hasSub sep s = false) :
    ∀ i, ¬ sep.isPrefixOf (s.drop i) = true := by
  intro i hpre
  by_cases hi : i ≤ s.length
  · rw [hasSub] at h
    have := List.any_eq_false.mp h i (List.mem_range.mpr (by omega))
    rw [hpre] at this
    exact this rfl
  · rw [List.drop_eq_nil_of_le (by omega)] at hpre
    rw [isPrefixOf_nil_eq_false hsep] at hpre
    exact Bool.false_ne_true hpre

/-- Scanning a match-free string emits it whole as the tail of the
current segment. -/
theorem splitOnAux_no_match (sep : List Char) :
    ∀ (s acc : List Char), (∀ i, ¬ sep.isPrefixOf (s.drop i) = true) →
      splitOnAux sep s acc = [acc.reverse ++ s]
  | [], acc, _ => by rw [splitOnAux, List.append_nil]
  | c :: rest, acc, h => by
    have hcond : ¬ (sep ≠ [] ∧ sep.isPrefixOf (c :: rest) = true) := by
      intro hc
      exact h 0 (by rw [List.drop_zero]; exact hc.2)
    rw [splitOnAux, dif_neg hcond,
      splitOnAux_no_match sep rest (c :: acc)
        (fun i => by have := h (i + 1); rwa [List.drop_succ_cons] at this),
      List.reverse_cons, List.append_assoc, List.singleton_append]

/-- Scanning past a match-free region up to the separator emits that
region as one segment and restarts after the separator. -/
theorem splitOnAux_append_match (sep : List Char) (hsep : sep ≠ []) :
    ∀ (X Y acc : List Char),
      (∀ i, i < X.length → ¬ sep.isPrefixOf ((X ++ (sep ++ Y)).drop i) = true) →
      splitOnAux sep (X ++ (sep ++ Y)) acc
        = (acc.reverse ++ X) :: splitOnAux sep Y []
  | [], Y, acc, _ => by
    cases hs : sep with
    | nil => exact absurd hs hsep
    | cons a as =>
      subst hs
      rw [List.nil_append, List.append_nil,
        show (a :: as) ++ Y = a :: (as ++ Y) from rfl, splitOnAux,
        dif_pos ⟨List.cons_ne_nil a as, isPrefixOf_append_self (a :: as) Y⟩,
        show (a :: (as ++ Y)).drop (a :: as).length = Y from
          List.drop_left (a :: as) Y]
  | c :: X', Y, acc, h => by
    have hcond : ¬ (sep ≠ [] ∧ sep.isPrefixOf (c :: (X' ++ (sep ++ Y))) = true) := by
      intro hc
      exact h 0 (by simp) (by rw [List.cons_append, List.drop_zero]; exact hc.2)
    rw [List.cons_append, splitOnAux, dif_neg hcond,
      splitOnAux_append_match sep hsep X' Y (c :: acc)
        (fun i hi => by
          have := h (i + 1) (by simpa using Nat.succ_lt_succ hi)
          rwa [List.cons_append, List.drop_succ_cons] at this),
      List.reverse_cons, List.append_assoc, List.singleton_append]

/-- Replacement over a match-free string is the identity scan. -/
theorem replaceAux_no_match (pat repl : List Char) :
    ∀ (s acc : List Char), (∀ i, ¬ pat.isPrefixOf (s.drop i) = true) →
      replaceAux pat repl s acc = acc.reverse ++ s
  | [], acc, _ => by rw [replaceAux, List.append_nil]
  | c :: rest, acc, h => by
    have hcond : ¬ (pat ≠ [] ∧ pat.isPrefixOf (c :: rest) = true) := by
      intro hc
      exact h 0 (by rw [List.drop_zero]; exact hc.2)
    rw [replaceAux, dif_neg hcond,
      replaceAux_no_match pat repl rest (c :: acc)
        (fun i => by have := h (i + 1); rwa [List.drop_succ_cons] at this),
      List.reverse_cons, List.append_assoc, List.singleton_append]

/-- Deletion-replacement consumes a match after a match-free region and
continues. -/
theorem replaceAux_append_match (pat : List Char) (hpat : pat ≠ []) :
    ∀ (X Y acc : List Char),
      (∀ i, i < X.length → ¬ pat.isPrefixOf ((X ++ (pat ++ Y)).drop i) = true) →
      replaceAux pat [] (X ++ (pat ++ Y)) acc
        = replaceAux pat [] Y (X.reverse ++ acc)
  | [], Y, acc, _ => by
    cases hs : pat with
    | nil => exact absurd hs hpat
    | cons a as =>
      subst hs
      rw [List.nil_append,
        show (a :: as) ++ Y = a :: (as ++ Y) from rfl, replaceAux,
        dif_pos ⟨List.cons_ne_nil a as, isPrefixOf_append_self (a :: as) Y⟩,
        show (a :: (as ++ Y)).drop (a :: as).length = Y from
          List.drop_left (a :: as) Y]
  | c :: X', Y, acc, h => by
    have hcond : ¬ (pat ≠ [] ∧ pat.isPrefixOf (c :: (X' ++ (pat ++ Y))) = true) := by
      intro hc
      exact h 0 (by simp) (by rw [List.cons_append, List.drop_zero]; exact hc.2)
    rw [List.cons_append, replaceAux, dif_neg hcond,
      replaceAux_append_match pat hpat X' Y (c :: acc)
        (fun i hi => by
          have := h (i + 1) (by simpa using Nat.succ_lt_succ hi)
          rwa [List.cons_append, List.drop_succ_cons] at this),
      List.reverse_cons, List.append_assoc, List.singleton_append]

/-- No occurrence of a pattern can start inside a text that avoids the
pattern's first character, prepended to a match-free remainder. -/
theorem noMatch_append_left {hd : Char} {tl P q : List Char}
    (hP : hd ∉ P)
    (hq : ∀ i, ¬ (hd :: tl).isPrefixOf (q.drop i) = true) :
    ∀ i, ¬ (hd :: tl).isPrefixOf ((P ++ q).drop i) = true := by
  intro i hpre
  by_cases hi : i < P.length
  · rw [List.drop_append_of_le_length (Nat.le_of_lt hi)] at hpre
    cases hdrop : P.drop i with
    | nil =>
      have : (P.drop i).length = 0 := by rw [hdrop]; rfl
      rw [List.length_drop] at this
      omega
    | cons c rest' =>
      rw [hdrop] at hpre
      have hc : c ∈ P := List.mem_of_mem_drop (hdrop ▸ List.mem_cons_self c rest')
      have : (hd == c && tl.isPrefixOf (rest' ++ q)) = true := hpre
      rw [Bool.and_eq_true, beq_iff_eq] at this
      exact hP (this.1 ▸ hc)
  · obtain ⟨j, rfl⟩ : ∃ j, i = P.length + j := ⟨i - P.length, by omega⟩
    rw [List.drop_append] at hpre
    exact hq j hpre

/-- The central straddle-freedom fact: for a pattern without a
nontrivial border (no proper nonempty suffix of it equals its own
prefix of the same length), no occurrence can start strictly inside the
text preceding an inserted copy of the pattern. -/
theorem noMatch_before_sep (sep q Y : List Char)
    (hq : ∀ i, ¬ sep.isPrefixOf (q.drop i) = true)
    (hborder : ∀ k ∈ List.range sep.length, 0 < k →
        sep.drop k ≠ sep.take (sep.length - k)) :
    ∀ i, i < q.length → ¬ sep.isPrefixOf ((q ++ (sep ++ Y)).drop i) = true := by
  intro i hi hpre
  rw [List.drop_append_of_le_length (Nat.le_of_lt hi)] at hpre
  have htlen : (q.drop i).length = q.length - i := List.length_drop i q
  have hpre' : sep <+: q.drop i ++ (sep ++ Y) :=
    List.isPrefixOf_iff_prefix.mp hpre
  by_cases hlen : sep.length ≤ (q.drop i).length
  · have h1 : sep = (q.drop i ++ (sep ++ Y)).take sep.length :=
      List.prefix_iff_eq_take.mp hpre'
    rw [List.take_append_of_le_length hlen] at h1
    have h2 : sep <+: q.drop i := h1 ▸ List.take_prefix sep.length (q.drop i)
    exact hq i (List.isPrefixOf_iff_prefix.mpr h2)
  · push_neg at hlen
    have htpos : 0 < (q.drop i).length := by omega
    have heq : sep = q.drop i ++ (sep ++ Y).take (sep.length - (q.drop i).length) := by
      have h1 := List.prefix_iff_eq_take.mp hpre'
      rwa [List.take_append_eq_append_take,
        List.take_of_length_le (Nat.le_of_lt hlen)] at h1
    have hdrop : sep.drop (q.drop i).length
        = (sep ++ Y).take (sep.length - (q.drop i).length) := by
      conv_lhs => rw [heq]
      rw [List.drop_left]
    have hfin : sep.drop (q.drop i).length
        = sep.take (sep.length - (q.drop i).length) := by
      rw [hdrop, List.take_append_of_le_length (by omega)]
    exact hborder (q.drop i).length (List.mem_range.mpr (by omega)) htpos hfin

/-- Restoring a string from its character list. -/
theorem str_mk_data (s : String) : String.mk s.data = s := rfl

/-- `[x].take k = [x]` whenever at least one element is requested. -/
theorem take_singleton_of_pos {α} (x : α) {k : ℕ} (hk : 0 < k) :
    [x].take k = [x] := by
  cases k with
  | zero => omega
  | succ n => rw [List.take_succ_cons, List.take_nil]

/-- Deleting every occurrence of a pattern from a string that starts
with the pattern and otherwise avoids it removes exactly the leading
copy. -/
theorem listReplace_delete_lead (pat q : List Char) (hpat : pat ≠ [])
    (hq : ∀ i, ¬ pat.isPrefixOf (q.drop i) = true) :
    listReplace pat [] (pat ++ q) = q := by
  rw [listReplace, show pat ++ q = [] ++ (pat ++ q) from rfl,
    replaceAux_append_match pat hpat [] q [] (fun i hi => absurd hi (by simp)),
    replaceAux_no_match pat [] q _ hq]
  simp

/-- C8 (amended): storing a conversation and recalling it recovers the
question and answer exactly, provided (i) neither the question nor the
answer contains the stored content's answer marker `"\n回答："`, (ii)
the *question* additionally contains no occurrence of the prefix
`"问题："` (`search_conversations` deletes every occurrence, not just
the leading one), and (iii) question and answer carry no leading or
trailing whitespace (both recovered parts are `strip()`ped).  Under the
claim's own precondition alone the round trip is lossy — see the
counterexample. -/
theorem C8_conversation_roundtrip (user_id conv_id q a : String)
    (w score : ℚ) (top_k : ℕ) (hk : 0 < top_k)
    (hqM : hasSub answerMarker.data q.data = false)
    (haM : hasSub answerMarker.data a.data = false)
    (hqP : hasSub questionPrefix.data q.data = false)
    (hq : pyStrip q = q) (ha : pyStrip a = a) :
    ∃ c, search_conversations
        ⟨[ingest_conversation user_id conv_id q a w score]⟩ user_id top_k
        = [c]
      ∧ c.query = some q ∧ c.answer = some a ∧ c.id = conv_id := by
  have hMne : answerMarker.data ≠ [] := by decide
  have hPne : questionPrefix.data ≠ [] := by decide
  have hqM' := noMatch_of_hasSub_false hMne hqM
  have haM' := noMatch_of_hasSub_false hMne haM
  have hqP' := noMatch_of_hasSub_false hPne hqP
  have hql : pyStripL q.data = q.data := congrArg String.data hq
  have hal : pyStripL a.data = a.data := congrArg String.data ha
  -- the stored content, as a character list
  have hdata : (ingest_conversation_content q a).data
      = (questionPrefix.data ++ q.data) ++ (answerMarker.data ++ a.data) := by
    rw [ingest_conversation_content, String.data_append, String.data_append,
      String.data_append, List.append_assoc]
  -- no occurrence of the marker before the inserted one
  have hnoq : ∀ i, ¬ answerMarker.data.isPrefixOf
      ((questionPrefix.data ++ q.data).drop i) = true :=
    fun i => noMatch_append_left (by decide) hqM' i
  have hsplit : listSplitOn answerMarker.data
      (ingest_conversation_content q a).data
      = [questionPrefix.data ++ q.data, a.data] := by
    rw [hdata, listSplitOn,
      splitOnAux_append_match answerMarker.data hMne _ _ _
        (fun i hi => noMatch_before_sep answerMarker.data
          (questionPrefix.data ++ q.data) a.data hnoq (by decide) i hi),
      splitOnAux_no_match answerMarker.data a.data [] haM',
      List.reverse_nil, List.nil_append, List.nil_append]
  -- the single stored row is found in the user's partition
  have hrows : convSearchRows
      ⟨[ingest_conversation user_id conv_id q a w score]⟩ user_id top_k
      = [ingest_conversation user_id conv_id q a w score] := by
    rw [convSearchRows,
      if_pos (by simp [VStore.hasPartition, ingest_conversation]),
      VStore.search]
    simp only [List.filter_cons, List.filter_nil]
    rw [if_pos (by simp [ingest_conversation, List.contains])]
    exact take_singleton_of_pos _ hk
  refine ⟨parseConvRow (ingest_conversation user_id conv_id q a w score),
    ?_, ?_, ?_, rfl⟩
  · rw [search_conversations, hrows, List.map_cons, List.map_nil]
  · show some (String.mk (pyStripL (listReplace questionPrefix.data []
      ((listSplitOn answerMarker.data
        (ingest_conversation_content q a).data).headD [])))) = some q
    rw [hsplit,
      show ([questionPrefix.data ++ q.data, a.data]).headD ([] : List Char)
        = questionPrefix.data ++ q.data from rfl,
      listReplace_delete_lead questionPrefix.data q.data hPne hqP',
      hql, str_mk_data]
  · show some (match listSplitOn answerMarker.data
        (ingest_conversation_content q a).data with
      | _ :: p1 :: _ => String.mk (pyStripL p1)
      | _ => "") = some a
    rw [hsplit]
    show some (String.mk (pyStripL a.data)) = some a
    rw [hal, str_mk_data]

/-- Witness for C8 (amended) at a concrete conversation. -/
theorem C8_conversation_roundtrip_witness :
    ∃ c, search_conversations
        ⟨[ingest_conversation "u1" "c1" "你好" "再见" 1 1]⟩ "u1" 3 = [c]
      ∧ c.query = some "你好" ∧ c.answer = some "再见" ∧ c.id = "c1" :=
  C8_conversation_roundtrip "u1" "c1" "你好" "再见" 1 1 3 (by decide)
    (by decide) (by decide) (by decide) (by decide) (by decide)

/-- C8 counterexample to the claim as stated: with the question
`"a问题：b"` and the answer `"c"` — neither containing the answer
marker `"\n回答："` the stored content is split on — recall returns the
question `"ab"`: `search_conversations` deletes *every* occurrence of
`"问题："` from the first part, so the round trip under the claim's
precondition is not lossless. -/
theorem C8_counterexample :
    hasSub answerMarker.data ("a问题：b" : String).data = false
    ∧ hasSub answerMarker.data ("c" : String).data = false
    ∧ (search_conversations
        ⟨[ingest_conversation "u1" "c1" "a问题：b" "c" 1 1]⟩ "u1" 3).map
        (fun c => (c.query, c.answer))
      = [(some "ab", some "c")]
    ∧ ("ab" : String) ≠ "a问题：b" := by
  have hsplit : listSplitOn answerMarker.data
      (ingest_conversation_content "a问题：b" "c").data
      = [questionPrefix.data ++ ("a问题：b" : String).data,
         ("c" : String).data] := by
    rw [show (ingest_conversation_content "a问题：b" "c").data
        = (questionPrefix.data ++ ("a问题：b" : String).data)
          ++ (answerMarker.data ++ ("c" : String).data) from rfl,
      listSplitOn,
      splitOnAux_append_match answerMarker.data (by decide) _ _ _
        (fun i hi => noMatch_before_sep answerMarker.data
          (questionPrefix.data ++ ("a问题：b" : String).data)
          ("c" : String).data
          (noMatch_append_left (by decide)
            (noMatch_of_hasSub_false (by decide) (by decide)))
          (by decide) i hi),
      splitOnAux_no_match answerMarker.data ("c" : String).data []
        (noMatch_of_hasSub_false (by decide) (by decide)),
      List.reverse_nil, List.nil_append, List.nil_append]
  have hrepl : listReplace questionPrefix.data []
      (questionPrefix.data ++ ("a问题：b" : String).data)
      = ("ab" : String).data := by
    rw [listReplace,
      show questionPrefix.data ++ ("a问题：b" : String).data
        = [] ++ (questionPrefix.data
            ++ (['a'] ++ (questionPrefix.data ++ ['b']))) from rfl,
      replaceAux_append_match questionPrefix.data (by decide) [] _ []
        (fun i hi => absurd hi (by simp)),
      replaceAux_append_match questionPrefix.data (by decide) ['a'] ['b'] _
        (by decide),
      replaceAux_no_match questionPrefix.data [] ['b'] _
        (noMatch_of_hasSub_false (by decide) (by decide))]
    rfl
  have hrows : convSearchRows
      ⟨[ingest_conversation "u1" "c1" "a问题：b" "c" 1 1]⟩ "u1" 3
      = [ingest_conversation "u1" "c1" "a问题：b" "c" 1 1] := rfl
  have hquery : (parseConvRow
      (ingest_conversation "u1" "c1" "a问题：b" "c" 1 1)).query
      = some "ab" := by
    show some (String.mk (pyStripL (listReplace questionPrefix.data []
      ((listSplitOn answerMarker.data
        (ingest_conversation_content "a问题：b" "c").data).headD []))))
      = some "ab"
    rw [hsplit,
      show ([questionPrefix.data ++ ("a问题：b" : String).data,
          ("c" : String).data]).headD ([] : List Char)
        = questionPrefix.data ++ ("a问题：b" : String).data from rfl,
      hrepl]
    rfl
  have hanswer : (parseConvRow
      (ingest_conversation "u1" "c1" "a问题：b" "c" 1 1)).answer
      = some "c" := by
    show some (match listSplitOn answerMarker.data
        (ingest_conversation_content "a问题：b" "c").data with
      | _ :: p1 :: _ => String.mk (pyStripL p1)
      | _ => "") = some "c"
    rw [hsplit]
    rfl
  refine ⟨by decide, by decide, ?_, by decide⟩
  rw [search_conversations, hrows]
  simp only [List.map_cons, List.map_nil]
  rw [hquery, hanswer]

end GongwenRag
